import Mathlib

/-!
Shallow embedding of the MCP development-workflow servers
(git-server.js, database-server.js / api-testing-server.js, devtools-server.js)
and proofs about the algorithmic core: the dispatch/envelope boundary, the
external-process result contract, the blame-output parser and its markdown
rendering, the commit-message classifier, the structural response validator,
and the performance-test aggregation.

JavaScript strings are modelled by Lean `String`; the JS string operations the
code uses (startsWith, substring, split, padEnd, includes, endsWith,
toLowerCase, parseInt) are embedded below over the underlying character list.
-/

/-- A single quote character as a string (used in composed JS template
literals such as the classifier summaries). -/
def quo : String := String.singleton (Char.ofNat 39)

/-- Decides whether the first list is a prefix of the second. -/
def listIsPrefix : List Char → List Char → Bool
  | [], _ => true
  | _ :: _, [] => false
  | a :: as, b :: bs => (a == b) && listIsPrefix as bs

/-- Embedding of JS `s.startsWith(pre)`. -/
def jsStartsWith (s pre : String) : Bool := listIsPrefix pre.data s.data

/-- Embedding of JS `s.endsWith(suf)`. -/
def jsEndsWith (s suf : String) : Bool := suf.data.isSuffixOf s.data

/-- Decides whether `sub` occurs as a contiguous sublist of the second list. -/
def listInfix (sub : List Char) : List Char → Bool
  | [] => sub.isEmpty
  | x :: xs => listIsPrefix sub (x :: xs) || listInfix sub xs

/-- Embedding of JS `s.includes(sub)`. -/
def jsIncludes (s sub : String) : Bool := listInfix sub.data s.data

/-- Embedding of JS `s.substring(n)` (drop the first `n` characters). -/
def jsDrop (s : String) (n : Nat) : String := ⟨s.data.drop n⟩

/-- Embedding of JS `s.substring(0, n)` (keep the first `n` characters). -/
def jsTake (s : String) (n : Nat) : String := ⟨s.data.take n⟩

/-- Embedding of JS `s.toLowerCase()` (ASCII case folding suffices for the
paths the classifier inspects). -/
def jsToLower (s : String) : String := ⟨s.data.map Char.toLower⟩

/-- Embedding of JS `s.padEnd(n)`: pad on the right with spaces up to
length `n`. -/
def jsPadEnd (s : String) (n : Nat) : String :=
  ⟨s.data ++ List.replicate (n - s.data.length) ' '⟩

/-- Auxiliary splitter: splits the character list at every occurrence of `c`,
keeping empty segments, with `acc` the (reversed) current segment. -/
def splitCharAux (c : Char) : List Char → List Char → List (List Char)
  | [], acc => [acc.reverse]
  | x :: xs, acc =>
    if x = c then acc.reverse :: splitCharAux c xs []
    else splitCharAux c xs (x :: acc)

/-- Embedding of JS `s.split(c)` for a single-character separator, as used on
the blame header lines (`line.split(" ")`). -/
def jsSplit (s : String) (c : Char) : List String :=
  (splitCharAux c s.data []).map (fun l => ⟨l⟩)

/-- Character class of the regex `[0-9a-f]`. -/
def isHexLower (c : Char) : Bool :=
  (('0' ≤ c) && (c ≤ '9')) || (('a' ≤ c) && (c ≤ 'f'))

/-- Embedding of the JS test `line.match(/^[0-9a-f]{40}/)`: the line has at
least 40 characters and its first 40 characters are lowercase hex digits. -/
def isHex40 (s : String) : Bool :=
  (s.data.take 40).all isHexLower && ((s.data.take 40).length == 40)

/-- Numeric value of a list of decimal digit characters. -/
def digitsToNat (l : List Char) : Nat :=
  l.foldl (fun a c => a * 10 + (c.toNat - '0'.toNat)) 0

/-- Shared tail of `jsParseInt`: parse the leading run of decimal digits,
returning `none` (JS `NaN`) when there is none. -/
def parseLeadingDigits (l : List Char) : Option Nat :=
  match l.takeWhile Char.isDigit with
  | [] => none
  | ds => some (digitsToNat ds)

/-- Embedding of JS `parseInt(s)` (radix 10): skip leading whitespace, accept
an optional sign, read the leading run of digits; `none` models `NaN`. -/
def jsParseInt (s : String) : Option Int :=
  match s.data.dropWhile Char.isWhitespace with
  | '-' :: rest => (parseLeadingDigits rest).map (fun n => -(n : Int))
  | '+' :: rest => (parseLeadingDigits rest).map (fun n => (n : Int))
  | rest => (parseLeadingDigits rest).map (fun n => (n : Int))

/-! ## Tool registry and dispatch envelope

Every server installs one `CallToolRequestSchema` handler of the same shape:
a `try`/`switch` over the declared tool names whose `default` case throws
`Unknown tool: <name>`, wrapped in a `catch` that converts any thrown error
into a `{content: [text], isError: true}` envelope
(git-server.js:237-520, devtools part_001:195-417, database-server.js:140-323).
Each matched case body is abstracted as a computation that either returns the
content blocks of an Ok envelope or throws an error message. -/

/-- Result envelope of one tool invocation: the ordered text content blocks
plus the `isError` flag (absent on success, modelled as `false`). -/
structure InvocationResult where
  content : List String
  isError : Bool
deriving Repr, DecidableEq

/-- Embedding of the `try { switch (name) ... default: throw } catch` dispatch
boundary shared by the servers. `toolNames` is the list of case labels of the
switch and `impl name` the outcome of the matched case body (`Except.error`
models a thrown exception). -/
def dispatchCall (toolNames : List String) (impl : String → Except String (List String))
    (name : String) : InvocationResult :=
  if name ∈ toolNames then
    match impl name with
    | Except.ok content => ⟨content, false⟩
    | Except.error msg => ⟨["Error: " ++ msg], true⟩
  else
    ⟨["Error: Unknown tool: " ++ name], true⟩

/-- Case labels of the git-server.js dispatch switch (lines 242-504). -/
def gitToolNames : List String :=
  ["git_status", "git_log", "git_diff", "git_branches", "generate_commit_message",
   "git_blame", "git_search_commits", "git_stage", "git_commit", "git_push"]

/-- Case labels of the devtools server dispatch switch (part_001:200-401). -/
def devtoolsToolNames : List String :=
  ["docker_ps", "docker_logs", "docker_exec", "docker_compose", "docker_stats",
   "run_command", "monitor_logs", "check_ports", "npm_scripts"]

/-! ## Process Runner (`execAsync = promisify(exec)`)

The servers execute external commands through Node's promisified
`child_process.exec`. Its contract, documented by Node and restated by the
repository itself (git-server.js:492-493: "We'll rely on execAsync to throw
only on a non-zero exit code, which indicates a true error"), is: the promise
resolves with `{stdout, stderr}` when the process spawns and exits with status
0, and rejects — with `Command failed: ...` for a non-zero exit, or with the
spawn error — otherwise. -/

/-- The possible fates of one attempted external process. -/
inductive SpawnOutcome where
  | completed (exitCode : Nat) (stdout stderr : String)
  | spawnFailure (msg : String)
deriving Repr, DecidableEq

/-- Embedding of `await execAsync(cmd)`: resolves with both streams on exit
status 0, rejects otherwise (Node attaches the command and stderr to the
rejection message for a non-zero exit). -/
def execAsync (cmd : String) : SpawnOutcome → Except String (String × String)
  | SpawnOutcome.completed 0 out err => Except.ok (out, err)
  | SpawnOutcome.completed (_ + 1) _ err =>
    Except.error ("Command failed: " ++ cmd ++ "\n" ++ err)
  | SpawnOutcome.spawnFailure m => Except.error m

/-- Embedding of the `git_push` case of git-server.js (lines 485-504) followed
by the dispatch `catch` (lines 509-519): the handler interpolates both streams
into one text block; a rejection of `execAsync` becomes a Failure envelope. -/
def gitPushResult (cmd : String) (o : SpawnOutcome) : InvocationResult :=
  match execAsync cmd o with
  | Except.ok (out, err) =>
    ⟨["Push command executed.\n\nSTDOUT:\n" ++ out ++ "\n\nSTDERR:\n" ++ err], false⟩
  | Except.error m => ⟨["Error: " ++ m], true⟩

/-- Embedding of the `run_command` case of the devtools server
(part_001:282-293) followed by its dispatch `catch` (part_001:406-415). -/
def runCommandResult (cmd : String) (o : SpawnOutcome) : InvocationResult :=
  match execAsync cmd o with
  | Except.ok (out, err) => ⟨["STDOUT:\n" ++ out ++ "\n\nSTDERR:\n" ++ err], false⟩
  | Except.error m => ⟨["Error: " ++ m], true⟩

/-! ## Blame parser (git-server.js:373-416, part_002:286-322)

The handler splits the raw `--line-porcelain` stream on newlines and folds the
lines through one mutable `currentCommitInfo` object: a line matching
`/^[0-9a-f]{40}/` starts a fresh attribution `{hash, line}` (clearing author
and date), an `author ` line sets the author, an `author-time ` line sets the
locale-formatted date, and a tab-prefixed line emits one record combining the
current attribution with the content after the tab. `Date.toLocaleDateString`
is locale-dependent, so the embedding is parameterized by the formatting
function `fmt : Int → String`; a timestamp that `parseInt` cannot parse
renders as the JS `Invalid Date` string. -/

/-- One emitted per-source-line attribution record; `none` fields model
properties that are absent/`undefined` on the JS object. -/
structure BlameLine where
  hash : Option String
  line : Option String
  author : Option String
  date : Option String
  content : String
deriving Repr, DecidableEq

/-- The running `currentCommitInfo` object of the parse loop. -/
structure BlameState where
  hash : Option String
  line : Option String
  author : Option String
  date : Option String
deriving Repr, DecidableEq

/-- Initial parse state: git-server.js starts from the empty object `{}`
(every field absent); part_002 starts from `null`, whose spread likewise
contributes no fields to an emitted record. -/
def blameInit : BlameState := ⟨none, none, none, none⟩

/-- The date string stored for an `author-time ` line with remainder `ts`. -/
def blameDate (fmt : Int → String) (ts : String) : String :=
  match jsParseInt ts with
  | some t => fmt t
  | none => "Invalid Date"

/-- One iteration of the parse loop of git-server.js:382-400: classify the
line and return the updated state together with the records emitted (one for
a content line, none otherwise). -/
def blameStep (fmt : Int → String) (st : BlameState) (line : String) :
    BlameState × List BlameLine :=
  if isHex40 line then
    ⟨⟨some (jsTake ((jsSplit line ' ').headD "") 8), (jsSplit line ' ').get? 2,
      none, none⟩, []⟩
  else if jsStartsWith line ("author ") then
    ⟨{ st with author := some (jsDrop line 7) }, []⟩
  else if jsStartsWith line ("author-time ") then
    ⟨{ st with date := some (blameDate fmt (jsDrop line 12)) }, []⟩
  else if jsStartsWith line ("\t") then
    ⟨st, [⟨st.hash, st.line, st.author, st.date, jsDrop line 1⟩]⟩
  else
    ⟨st, []⟩

/-- The parse loop from an arbitrary current state, returning the emitted
records in order. -/
def blameRun (fmt : Int → String) (st : BlameState) : List String → List BlameLine
  | [] => []
  | l :: ls =>
    ((blameStep fmt st l).2) ++ blameRun fmt (blameStep fmt st l).1 ls

/-- The state after folding the loop over a list of lines. -/
def blameFold (fmt : Int → String) (st : BlameState) (lines : List String) : BlameState :=
  lines.foldl (fun s l => (blameStep fmt s l).1) st

/-- Embedding of the whole parse of git-server.js:378-400, applied to the
stream already split on newlines. -/
def blameParse (fmt : Int → String) (lines : List String) : List BlameLine :=
  blameRun fmt blameInit lines

/-! ### Synthetic well-formed commit-info blocks (for the round-trip claim) -/

/-- One synthetic commit-info block of an annotated stream: a header line
`<hash40> <origLine> <finalLine>`, its `author ` and `author-time ` tag lines,
and the tab-prefixed content lines under it. -/
structure BlameBlock where
  hash40 : String
  origLine : String
  finalLine : String
  author : String
  timeStr : String
  contents : List String
deriving Repr

/-- Well-formedness of a synthetic block: the commit id is exactly 40
lowercase hex characters and the two line-number tokens contain no space
(so that `split(" ")` recovers the three header fields). -/
def wfBlock (b : BlameBlock) : Bool :=
  (b.hash40.data.length == 40) && b.hash40.data.all isHexLower &&
  !b.origLine.data.contains ' ' && !b.finalLine.data.contains ' '

/-- The lines a synthetic block contributes to the stream. -/
def blockLines (b : BlameBlock) : List String :=
  (b.hash40 ++ " " ++ b.origLine ++ " " ++ b.finalLine) ::
  ("author " ++ b.author) ::
  ("author-time " ++ b.timeStr) ::
  b.contents.map (fun c => "\t" ++ c)

/-- The attribution state the parser reaches at the end of a block. -/
def blockState (fmt : Int → String) (b : BlameBlock) : BlameState :=
  ⟨some (jsTake b.hash40 8), some b.finalLine, some b.author,
   some (blameDate fmt b.timeStr)⟩

/-- The records the parser is expected to emit for a block: one per content
line, in order, all carrying the block's attribution. -/
def blockRecords (fmt : Int → String) (b : BlameBlock) : List BlameLine :=
  b.contents.map (fun c =>
    ⟨some (jsTake b.hash40 8), some b.finalLine, some b.author,
     some (blameDate fmt b.timeStr), c⟩)

/-! ## Markdown-table rendering of the blame records (git-server.js:402-406)

The table body maps each record through a template literal that calls
`padEnd` on the record's `line`, `author` and `date` fields. JS evaluates the
interpolated expressions left to right, and `undefined.padEnd` throws a
`TypeError`; an `undefined` interpolated directly (the `hash` field) renders
as the string `undefined`. -/

/-- Embedding of JS member access `v.padEnd(n)` on a possibly-`undefined`
string: calling a method on `undefined` throws. -/
def jsPadEndOpt (v : Option String) (n : Nat) : Except String String :=
  match v with
  | some s => Except.ok (jsPadEnd s n)
  | none =>
    Except.error ("Cannot read properties of undefined (reading " ++ quo ++
      "padEnd" ++ quo ++ ")")

/-- Template interpolation of a possibly-`undefined` string value. -/
def jsInterp (v : Option String) : String :=
  match v with
  | some s => s
  | none => "undefined"

/-- Embedding of JS `content.replace(/\|/g, "\\|")`. -/
def escapePipes (s : String) : String :=
  ⟨s.data.foldr (fun c acc => if c = '|' then '\\' :: '|' :: acc else c :: acc) []⟩

/-- Rendering of one table row (the arrow function body of
git-server.js:404-405); an `undefined` `line`, `author` or `date` field makes
the row throw. -/
def renderBlameRow (l : BlameLine) : Except String String := do
  let lineStr ← jsPadEndOpt l.line 4
  let authorStr ← jsPadEndOpt l.author 13
  let dateStr ← jsPadEndOpt l.date 10
  Except.ok ("| " ++ lineStr ++ " | " ++ jsInterp l.hash ++ " | " ++
    jsTake authorStr 13 ++ " | " ++ dateStr ++ " | `" ++
    escapePipes l.content ++ "` |")

/-- Rendering of all rows; an exception thrown inside `map` aborts the whole
rendering. -/
def renderBlameRows : List BlameLine → Except String (List String)
  | [] => Except.ok []
  | l :: ls => do
    let row ← renderBlameRow l
    let rest ← renderBlameRows ls
    Except.ok (row :: rest)

/-- The joined table body (`.join("\n")` of git-server.js:406). -/
def renderBlameTable (ls : List BlameLine) : Except String String :=
  (renderBlameRows ls).map (fun rows => String.intercalate "\n" rows)

/-- Column header line of the rendered table (git-server.js:402). -/
def blameHeader : String :=
  "| Line | Commit   | Author        | Date       | Content                  |"

/-- Separator line of the rendered table (git-server.js:403). -/
def blameSeparator : String :=
  "|------|----------|---------------|------------|--------------------------|"

/-- The envelope produced by the `git_blame` case of git-server.js for a given
already-split stdout stream: parse, render the table, and let the dispatch
`catch` (lines 509-519) turn a thrown rendering error into a Failure
envelope. -/
def gitBlameResult (fmt : Int → String) (lines : List String) (file : String) :
    InvocationResult :=
  match renderBlameTable (blameParse fmt lines) with
  | Except.ok body =>
    ⟨["Blame for " ++ file ++ ":\n\n" ++ blameHeader ++ "\n" ++ blameSeparator ++
      "\n" ++ body], false⟩
  | Except.error m => ⟨["Error: " ++ m], true⟩

/-! ## Commit-message classifier (git-server.js:310-371)

The handler splits the `--name-status` diff into `{status, file}` records and
derives a conventional-commit `type` and `summary` through an if/else chain,
followed by an unconditional dependency-manifest override. The chain and the
override are embedded verbatim below. -/

/-- One staged-change record parsed from a `<status>\t<path>` line. -/
structure ChangeRecord where
  status : String
  file : String
deriving Repr, DecidableEq

/-- JS `added[0].file` under the guard `added.length > 0`; total by returning
the empty string on the (unreachable) empty list. -/
def firstFile : List ChangeRecord → String
  | [] => ""
  | c :: _ => c.file

/-- Embedding of the classification chain (git-server.js:329-357): the
added/modified/deleted filters, the five-way if/else chain assigning
`(type, summary)`, and the dependency-manifest override. Returns the final
`(type, summary)` pair. -/
def classifyChanges (files : List ChangeRecord) : String × String :=
  let added := files.filter (fun f => jsStartsWith f.status ("A"))
  let modified := files.filter (fun f => jsStartsWith f.status ("M"))
  let deleted := files.filter (fun f => jsStartsWith f.status ("D"))
  let base :=
    if added.length > 0 && modified.length == 0 && deleted.length == 0 then
      ("feat",
       "add " ++ (if added.length > 1 then toString added.length ++ " new files"
                  else quo ++ firstFile added ++ quo))
    else if files.all (fun f =>
        jsEndsWith f.file (".md") || jsIncludes (jsToLower f.file) ("readme")) then
      ("docs", "update documentation")
    else if files.any (fun f =>
        jsIncludes f.file ("test") || jsIncludes f.file ("spec")) then
      ("test", "update tests")
    else if modified.length > 0 then
      ("fix",
       "update " ++ (if modified.length > 1 then toString modified.length ++ " files"
                     else quo ++ firstFile modified ++ quo))
    else
      ("chore", "update project structure")
  if files.any (fun f => f.file == "package.json" || f.file == "package-lock.json") then
    ("chore", "update dependencies or project config")
  else
    base

/-! ## Structural validator (database-server.js api-testing section, lines 714-754)

`validateObject(obj, schema, path)` walks the properties declared by an
object-typed schema, pushing `Missing required field` / `Type mismatch`
messages into a shared `errors` array. The only JS operation in its body that
can throw is the property read `obj[key]`, which throws a `TypeError` when
`obj` is `null` or `undefined`; the embedding therefore returns
`Except String (List String)`, with `Except.error` modelling a thrown
exception that discards the accumulated list. -/

/-- Runtime JS values, as far as the validator observes them. -/
inductive JsValue where
  | vNull
  | vUndefined
  | vBool (b : Bool)
  | vNum (n : Int)
  | vStr (s : String)
  | vArr (elems : List JsValue)
  | vObj (fields : List (String × JsValue))

/-- Embedding of the JS strict test `value === undefined`. -/
def isUndef : JsValue → Bool
  | JsValue.vUndefined => true
  | _ => false

/-- JS `typeof` on the modelled values (`typeof null` is `object`). -/
def jsTypeOf : JsValue → String
  | JsValue.vNull => "object"
  | JsValue.vUndefined => "undefined"
  | JsValue.vBool _ => "boolean"
  | JsValue.vNum _ => "number"
  | JsValue.vStr _ => "string"
  | JsValue.vArr _ => "object"
  | JsValue.vObj _ => "object"

/-- The `actualType` computation of database-server.js:731:
`Array.isArray(value) ? "array" : typeof value`. -/
def jsTypeTag (v : JsValue) : String :=
  match v with
  | JsValue.vArr _ => "array"
  | _ => jsTypeOf v

/-- Field lookup on the property list of an object value; an absent key reads
as `undefined`. -/
def objGet (fields : List (String × JsValue)) (key : String) : JsValue :=
  match fields.find? (fun p => p.1 == key) with
  | some p => p.2
  | none => JsValue.vUndefined

/-- Embedding of the JS property read `obj[key]`: throws a `TypeError` on
`null`/`undefined`, reads the field of an object, and reads `undefined` from
every other value. (Built-in properties such as `length` on arrays and
strings are not modelled; no schema in this system names them.) -/
def getField (obj : JsValue) (key : String) : Except String JsValue :=
  match obj with
  | JsValue.vNull =>
    Except.error ("Cannot read properties of null (reading " ++ quo ++ key ++ quo ++ ")")
  | JsValue.vUndefined =>
    Except.error ("Cannot read properties of undefined (reading " ++ quo ++ key ++ quo ++ ")")
  | JsValue.vObj fields => Except.ok (objGet fields key)
  | _ => Except.ok JsValue.vUndefined

/-- Declared shape of one property: its `type` tag. -/
structure PropShape where
  type : String
deriving Repr, DecidableEq

/-- Declared shape passed to the validator: the `type` tag, the declared
properties in declaration order (`none` models an absent/falsy `properties`),
and the `required` key list (`none` models an absent/falsy `required`). -/
structure Shape where
  type : String
  properties : Option (List (String × PropShape))
  required : Option (List String)
deriving Repr, DecidableEq

/-- The `schema.required && schema.required.includes(key)` test. -/
def requiredHas (req : Option (List String)) (key : String) : Bool :=
  match req with
  | some l => l.contains key
  | none => false

/-- The `currentPath` computation of database-server.js:722. -/
def currentPathOf (path key : String) : String :=
  if path == "" then key else path ++ "." ++ key

/-- Message pushed for a missing required field (database-server.js:725). -/
def missingMsg (p : String) : String := "Missing required field: " ++ p

/-- Message pushed for a type mismatch (database-server.js:734). -/
def mismatchMsg (p expected actual : String) : String :=
  "Type mismatch at " ++ p ++ ": expected " ++ expected ++ ", got " ++ actual

/-- The loop of database-server.js:720-737 over the declared properties:
read the field (which may throw), emit at most one message for this property,
and continue with the remaining properties. -/
def validateProps (obj : JsValue) (req : Option (List String)) (path : String) :
    List (String × PropShape) → Except String (List String)
  | [] => Except.ok []
  | (key, ps) :: rest => do
    let value ← getField obj key
    let here :=
      if requiredHas req key && isUndef value then
        [missingMsg (currentPathOf path key)]
      else if !isUndef value && (jsTypeTag value != ps.type) then
        [mismatchMsg (currentPathOf path key) ps.type (jsTypeTag value)]
      else []
    let restErrs ← validateProps obj req path rest
    Except.ok (here ++ restErrs)

/-- Embedding of `validateObject(obj, schema, path)`
(database-server.js:718-739): a non-object schema type or absent `properties`
checks nothing. -/
def validateObject (obj : JsValue) (shape : Shape) (path : String) :
    Except String (List String) :=
  if shape.type == "object" then
    match shape.properties with
    | some props => validateProps obj shape.required path props
    | none => Except.ok []
  else
    Except.ok []

/-- Truth of "the validator returned its accumulated error list" (as opposed
to throwing). -/
def returnsErrorList : Except String (List String) → Bool
  | Except.ok _ => true
  | Except.error _ => false

/-- The shape `{type: object, properties: {id: {type: number}}, required: [id]}`
from the spec's validator-boundary property. -/
def idShape : Shape := ⟨"object", some [("id", ⟨"number"⟩)], some ["id"]⟩

/-! ## Performance-test aggregation (database-server.js api-testing section,
lines 674-711)

The loop issues `requests` timed calls, pushing each success duration into
`times` and each failure message into `errors`, then computes the aggregate
statistics. Durations are `Date.now()` differences, modelled as naturals;
`averageTime` is a JS float, modelled as a rational (the JS `NaN` / `±Infinity`
values arising from an empty `times` are modelled as `0` / `none` and are
outside every claim, which requires at least one success). -/

/-- Aggregate statistics record built at database-server.js:693-702. -/
structure PerfStats where
  totalRequests : Nat
  successfulRequests : Nat
  failedRequests : Nat
  averageTime : ℚ
  minTime : Option Nat
  maxTime : Option Nat
  times : List Nat
  errors : List String
deriving Repr, DecidableEq

/-- The request loop (database-server.js:679-691): distribute the per-request
outcomes into the `times` and `errors` arrays in issuance order. -/
def runPerfOutcomes : List (Except String Nat) → List Nat × List String
  | [] => ([], [])
  | Except.ok d :: rest =>
    ((runPerfOutcomes rest).1.cons d, (runPerfOutcomes rest).2)
  | Except.error m :: rest =>
    ((runPerfOutcomes rest).1, (runPerfOutcomes rest).2.cons m)

/-- JS `Math.min(...l)`; `none` models the `Infinity` of an empty spread. -/
def jsMathMin : List Nat → Option Nat
  | [] => none
  | x :: xs => some (xs.foldl Nat.min x)

/-- JS `Math.max(...l)`; `none` models the `-Infinity` of an empty spread. -/
def jsMathMax : List Nat → Option Nat
  | [] => none
  | x :: xs => some (xs.foldl Nat.max x)

/-- The `stats` object of database-server.js:693-702, given the requested
count and the outcomes of the loop's sub-requests. -/
def performanceTest (requests : Nat) (outcomes : List (Except String Nat)) : PerfStats :=
  let times := (runPerfOutcomes outcomes).1
  let errors := (runPerfOutcomes outcomes).2
  { totalRequests := requests
    successfulRequests := times.length
    failedRequests := errors.length
    averageTime := (times.map (fun d => (d : ℚ))).sum / (times.length : ℚ)
    minTime := jsMathMin times
    maxTime := jsMathMax times
    times := times
    errors := errors }

/-! ## Theorems -/

/-- Claim C1: for every invocation request delivered to a server's dispatch
handler, exactly one result envelope is produced and no exception escapes
(`dispatchCall` is a total function into envelopes): an unknown tool name
yields a Failure envelope whose single text block reports the unknown tool, a
throwing handler yields a Failure envelope carrying the error's message text,
and otherwise the result is the handler's Ok envelope. -/
theorem dispatch_exactly_one_envelope (toolNames : List String)
    (impl : String → Except String (List String)) (name : String) :
    (name ∉ toolNames →
      dispatchCall toolNames impl name = ⟨["Error: Unknown tool: " ++ name], true⟩) ∧
    (∀ m, name ∈ toolNames → impl name = Except.error m →
      dispatchCall toolNames impl name = ⟨["Error: " ++ m], true⟩) ∧
    (∀ c, name ∈ toolNames → impl name = Except.ok c →
      dispatchCall toolNames impl name = ⟨c, false⟩) := by
  refine ⟨fun h => ?_, fun m hmem himpl => ?_, fun c hmem himpl => ?_⟩ <;>
    simp [dispatchCall, *]

/-- Witness for C1 at concrete inputs: an unknown tool on the git server, a
throwing case body on the devtools server, and a successful case body. -/
theorem dispatch_exactly_one_envelope_witness :
    dispatchCall gitToolNames (fun _ => Except.ok ["ok"]) "frobnicate" =
      ⟨["Error: Unknown tool: frobnicate"], true⟩ ∧
    dispatchCall devtoolsToolNames (fun _ => Except.error "boom") "run_command" =
      ⟨["Error: boom"], true⟩ ∧
    dispatchCall gitToolNames (fun _ => Except.ok ["hello"]) "git_status" =
      ⟨["hello"], false⟩ :=
  ⟨(dispatch_exactly_one_envelope gitToolNames (fun _ => Except.ok ["ok"])
      "frobnicate").1 (by decide),
   (dispatch_exactly_one_envelope devtoolsToolNames (fun _ => Except.error "boom")
      "run_command").2.1 "boom" (by decide) rfl,
   (dispatch_exactly_one_envelope gitToolNames (fun _ => Except.ok ["hello"])
      "git_status").2.2 ["hello"] (by decide) rfl⟩

/-- Claim C2 counterexample: a `git_push` whose process exits with status 1
while emitting advisory stderr does NOT yield the handler both streams — the
promisified `exec` rejects on the non-zero exit (exactly as the code's own
comment at git-server.js:492-493 states), and the invocation ends as a
Failure envelope. -/
theorem execAsync_nonzero_exit_cex :
    gitPushResult ("git -C /repo push origin main")
      (SpawnOutcome.completed 1 "" "advisory text") =
      ⟨["Error: Command failed: git -C /repo push origin main\nadvisory text"], true⟩ ∧
    runCommandResult ("make") (SpawnOutcome.completed 2 "partial" "warning") =
      ⟨["Error: Command failed: make\nwarning"], true⟩ := ⟨rfl, rfl⟩

/-- Claim C2 (amended): the Process Runner returns both streams to the
handler exactly when the process spawns and exits with status 0; both a spawn
failure and a non-zero exit status are reported to the handler as failures
(surfacing as Failure envelopes from `git_push` and `run_command`). -/
theorem execAsync_streams_amended (cmd out err m : String) (code : Nat)
    (h : code ≠ 0) :
    gitPushResult cmd (SpawnOutcome.completed 0 out err) =
      ⟨["Push command executed.\n\nSTDOUT:\n" ++ out ++ "\n\nSTDERR:\n" ++ err], false⟩ ∧
    (gitPushResult cmd (SpawnOutcome.completed code out err)).isError = true ∧
    (gitPushResult cmd (SpawnOutcome.spawnFailure m)).isError = true ∧
    runCommandResult cmd (SpawnOutcome.completed 0 out err) =
      ⟨["STDOUT:\n" ++ out ++ "\n\nSTDERR:\n" ++ err], false⟩ ∧
    (runCommandResult cmd (SpawnOutcome.completed code out err)).isError = true ∧
    (runCommandResult cmd (SpawnOutcome.spawnFailure m)).isError = true := by
  cases code with
  | zero => exact absurd rfl h
  | succ k =>
    exact ⟨rfl, rfl, rfl, rfl, rfl, rfl⟩

/-- Witness for the amended C2 at a concrete non-zero exit. -/
theorem execAsync_streams_amended_witness :
    (gitPushResult ("git push") (SpawnOutcome.completed 1 "out" "advisory")).isError
      = true :=
  (execAsync_streams_amended "git push" "out" "advisory" "spawn failed" 1
    (by decide)).2.1

/-- Claim C9: any change list containing a record whose path is exactly
`package.json` or `package-lock.json` makes the classifier's final output
`chore` / `update dependencies or project config`, overriding the if/else
chain. -/
theorem classify_deps_override (files : List ChangeRecord)
    (h : ∃ f ∈ files, f.file = "package.json" ∨ f.file = "package-lock.json") :
    classifyChanges files = ("chore", "update dependencies or project config") := by
  obtain ⟨f, hmem, hf⟩ := h
  have hany : files.any
      (fun f => f.file == "package.json" || f.file == "package-lock.json") = true := by
    refine List.any_eq_true.mpr ⟨f, hmem, ?_⟩
    rcases hf with h1 | h1 <;> simp [h1]
  simp only [classifyChanges, hany]
  simp

/-- Witness for C9 at the spec's own example `[{Modified, package.json}]`. -/
theorem classify_deps_override_witness :
    classifyChanges [⟨"M", "package.json"⟩] =
      ("chore", "update dependencies or project config") :=
  classify_deps_override [⟨"M", "package.json"⟩]
    ⟨⟨"M", "package.json"⟩, by decide, Or.inl rfl⟩

/-- Claim C4 counterexample. First input: `[{A, package.json}]` has one Added
record and no Modified/Deleted records, yet the classifier returns type
`chore` (the dependency-manifest override fires after the chain), refuting the
claimed universal `feat`. Second input: `[{A, a.ts}, {R100, b.ts}]` is NOT a
list in which every change is an Added file, yet the `feat` branch still
applies — refuting the claim's "applies exactly when every change is an Added
file". -/
theorem classify_feat_cex :
    (classifyChanges [⟨"A", "package.json"⟩]).1 = "chore" ∧
    classifyChanges [⟨"A", "a.ts"⟩, ⟨"R100", "b.ts"⟩] =
      ("feat", "add " ++ quo ++ "a.ts" ++ quo) := by
  exact ⟨rfl, rfl⟩

/-- Claim C4 (amended): for every change list with at least one Added record,
no Modified record, no Deleted record, and no dependency-manifest path (which
would trigger the later override), the classifier returns type `feat` with
summary `add '<path>'` for exactly one Added record and `add N new files`
otherwise; Renamed or Other records may be present, so the branch does not
apply exactly when every change is an Added file. -/
theorem classify_feat_amended (files : List ChangeRecord)
    (hA : ∃ f ∈ files, jsStartsWith f.status ("A") = true)
    (hM : ∀ f ∈ files, jsStartsWith f.status ("M") = false)
    (hD : ∀ f ∈ files, jsStartsWith f.status ("D") = false)
    (hdep : ∀ f ∈ files, f.file ≠ "package.json" ∧ f.file ≠ "package-lock.json") :
    classifyChanges files =
      ("feat",
       "add " ++
         (if (files.filter (fun f => jsStartsWith f.status ("A"))).length > 1 then
            toString (files.filter (fun f => jsStartsWith f.status ("A"))).length
              ++ " new files"
          else
            quo ++ firstFile (files.filter (fun f => jsStartsWith f.status ("A"))) ++ quo)) := by
  obtain ⟨f, hmem, hf⟩ := hA
  have hadd : 0 < (files.filter (fun f => jsStartsWith f.status ("A"))).length :=
    List.length_pos.mpr (List.ne_nil_of_mem (List.mem_filter.mpr ⟨hmem, hf⟩))
  have hmod : files.filter (fun f => jsStartsWith f.status ("M")) = [] :=
    List.filter_eq_nil_iff.mpr (fun g hg => by simp [hM g hg])
  have hdel : files.filter (fun f => jsStartsWith f.status ("D")) = [] :=
    List.filter_eq_nil_iff.mpr (fun g hg => by simp [hD g hg])
  have hany : files.any
      (fun f => f.file == "package.json" || f.file == "package-lock.json") = false := by
    refine List.any_eq_false.mpr (fun g hg => ?_)
    simp [(hdep g hg).1, (hdep g hg).2]
  simp only [classifyChanges, hmod, hdel, hany]
  simp [hadd]

/-- Witness for the amended C4 at the single added file `[{A, x.ts}]`. -/
theorem classify_feat_amended_witness :
    classifyChanges [⟨"A", "x.ts"⟩] =
      ("feat",
       "add " ++
         (if (List.filter (fun f => jsStartsWith f.status ("A"))
                [(⟨"A", "x.ts"⟩ : ChangeRecord)]).length > 1 then
            toString (List.filter (fun f => jsStartsWith f.status ("A"))
                [(⟨"A", "x.ts"⟩ : ChangeRecord)]).length ++ " new files"
          else
            quo ++ firstFile (List.filter (fun f => jsStartsWith f.status ("A"))
                [(⟨"A", "x.ts"⟩ : ChangeRecord)]) ++ quo)) :=
  classify_feat_amended [⟨"A", "x.ts"⟩]
    ⟨⟨"A", "x.ts"⟩, by decide, by decide⟩ (by decide) (by decide) (by decide)

/-- Helper: for a value that is neither `null` nor `undefined`, the property
loop never throws — the only throwing operation in the validator body is the
field read. -/
theorem validateProps_ok (v : JsValue) (req : Option (List String)) (path : String)
    (props : List (String × PropShape)) (hn : v ≠ JsValue.vNull)
    (hu : v ≠ JsValue.vUndefined) :
    ∃ errs, validateProps v req path props = Except.ok errs := by
  induction props with
  | nil => exact ⟨[], rfl⟩
  | cons p rest ih =>
    obtain ⟨errs, herrs⟩ := ih
    obtain ⟨key, ps⟩ := p
    have hget : ∃ w, getField v key = Except.ok w := by
      cases v with
      | vNull => exact absurd rfl hn
      | vUndefined => exact absurd rfl hu
      | vBool b => exact ⟨_, rfl⟩
      | vNum n => exact ⟨_, rfl⟩
      | vStr s => exact ⟨_, rfl⟩
      | vArr a => exact ⟨_, rfl⟩
      | vObj fields => exact ⟨_, rfl⟩
    obtain ⟨w, hw⟩ := hget
    refine ⟨(if requiredHas req key && isUndef w then
        [missingMsg (currentPathOf path key)]
      else if !isUndef w && (jsTypeTag w != ps.type) then
        [mismatchMsg (currentPathOf path key) ps.type (jsTypeTag w)]
      else []) ++ errs, ?_⟩
    simp only [validateProps, hw, herrs]
    rfl

/-- Claim C5 counterexample: against the shape
`{type: object, properties: {id: {type: number}}, required: [id]}`, the
validator applied to the value `null` does not return an error list at all —
the property read `null["id"]` throws a `TypeError` (discarding the
accumulated findings), contradicting "returns its accumulated error list and
never throws — including when the value is null". -/
theorem validate_null_throws_cex :
    validateObject JsValue.vNull idShape "" =
      Except.error ("Cannot read properties of null (reading " ++ quo ++ "id" ++ quo ++ ")") ∧
    returnsErrorList (validateObject JsValue.vNull idShape "") = false := ⟨rfl, rfl⟩

/-- Claim C5 (amended): for every (value, shape) input whose value is neither
`null` nor `undefined`, the structural validator returns its accumulated
error list and never throws; for `null`/`undefined` values against an
object-typed shape with at least one declared property, the field read throws
a `TypeError` (converted to a Failure envelope at the dispatch boundary). -/
theorem validateObject_never_throws (v : JsValue) (shape : Shape) (path : String)
    (hn : v ≠ JsValue.vNull) (hu : v ≠ JsValue.vUndefined) :
    returnsErrorList (validateObject v shape path) = true := by
  simp only [validateObject]
  by_cases htype : (shape.type == "object") = true
  · simp only [htype, if_true]
    cases hp : shape.properties with
    | none => rfl
    | some props =>
      obtain ⟨errs, herrs⟩ := validateProps_ok v shape.required path props hn hu
      simp [herrs, returnsErrorList]
  · simp only [Bool.not_eq_true] at htype
    simp [htype, returnsErrorList]

/-- Witness for the amended C5: a plain-object value against the same shape
returns its error list. -/
theorem validateObject_never_throws_witness :
    returnsErrorList (validateObject (JsValue.vObj []) idShape "") = true :=
  validateObject_never_throws (JsValue.vObj []) idShape ""
    (by rintro ⟨⟩) (by rintro ⟨⟩)

/-- Helper: a loop whose sub-requests all succeed records exactly the
durations, in issuance order, and no errors. -/
theorem runPerfOutcomes_all_ok (ds : List Nat) :
    runPerfOutcomes (ds.map Except.ok) = (ds, []) := by
  induction ds with
  | nil => rfl
  | cons d rest ih => simp [runPerfOutcomes, ih]

/-- Helper: the fold underlying `Math.min(...)` yields a member of the seed
and the folded list. -/
theorem foldl_min_mem (xs : List Nat) : ∀ a : Nat, xs.foldl Nat.min a ∈ a :: xs := by
  induction xs with
  | nil => intro a; simp
  | cons x rest ih =>
    intro a
    have h := ih (Nat.min a x)
    simp only [List.foldl_cons]
    rcases List.mem_cons.mp h with h1 | h1
    · have h2 : Nat.min a x = a ∨ Nat.min a x = x := by
        rw [show Nat.min a x = min a x from rfl]
        omega
      rw [h1]
      rcases h2 with h2 | h2 <;> rw [h2] <;> simp
    · simp [h1]

/-- Helper: the fold underlying `Math.min(...)` is a lower bound of the seed
and the folded list. -/
theorem foldl_min_le (xs : List Nat) :
    ∀ a : Nat, xs.foldl Nat.min a ≤ a ∧ ∀ x ∈ xs, xs.foldl Nat.min a ≤ x := by
  induction xs with
  | nil => intro a; simp
  | cons x rest ih =>
    intro a
    obtain ⟨h1, h2⟩ := ih (Nat.min a x)
    refine ⟨le_trans h1 (Nat.min_le_left a x), fun y hy => ?_⟩
    rcases List.mem_cons.mp hy with rfl | hmem
    · exact le_trans h1 (Nat.min_le_right a y)
    · exact h2 y hmem

/-- Helper: the fold underlying `Math.max(...)` yields a member of the seed
and the folded list. -/
theorem foldl_max_mem (xs : List Nat) : ∀ a : Nat, xs.foldl Nat.max a ∈ a :: xs := by
  induction xs with
  | nil => intro a; simp
  | cons x rest ih =>
    intro a
    have h := ih (Nat.max a x)
    simp only [List.foldl_cons]
    rcases List.mem_cons.mp h with h1 | h1
    · have h2 : Nat.max a x = a ∨ Nat.max a x = x := by
        rw [show Nat.max a x = max a x from rfl]
        omega
      rw [h1]
      rcases h2 with h2 | h2 <;> rw [h2] <;> simp
    · simp [h1]

/-- Helper: the fold underlying `Math.max(...)` is an upper bound of the seed
and the folded list. -/
theorem foldl_max_le (xs : List Nat) :
    ∀ a : Nat, a ≤ xs.foldl Nat.max a ∧ ∀ x ∈ xs, x ≤ xs.foldl Nat.max a := by
  induction xs with
  | nil => intro a; simp
  | cons x rest ih =>
    intro a
    obtain ⟨h1, h2⟩ := ih (Nat.max a x)
    refine ⟨le_trans (Nat.le_max_left a x) h1, fun y hy => ?_⟩
    rcases List.mem_cons.mp hy with rfl | hmem
    · exact le_trans (Nat.le_max_right a y) h1
    · exact h2 y hmem

/-- Claim C7: a `performance_test` whose N sub-requests all succeed with
durations `ds` reports totalRequests = N, successfulRequests = N,
failedRequests = 0, averageTime = (Σ ds)/N, and minTime/maxTime equal to the
minimum/maximum of the durations. -/
theorem performanceTest_all_ok (ds : List Nat) (h : ds ≠ []) :
    (performanceTest ds.length (ds.map Except.ok)).totalRequests = ds.length ∧
    (performanceTest ds.length (ds.map Except.ok)).successfulRequests = ds.length ∧
    (performanceTest ds.length (ds.map Except.ok)).failedRequests = 0 ∧
    (performanceTest ds.length (ds.map Except.ok)).averageTime =
      (ds.map (fun d => (d : ℚ))).sum / (ds.length : ℚ) ∧
    (∃ m, (performanceTest ds.length (ds.map Except.ok)).minTime = some m ∧
      m ∈ ds ∧ ∀ d ∈ ds, m ≤ d) ∧
    (∃ M, (performanceTest ds.length (ds.map Except.ok)).maxTime = some M ∧
      M ∈ ds ∧ ∀ d ∈ ds, d ≤ M) := by
  cases ds with
  | nil => exact absurd rfl h
  | cons d rest =>
    have hrun := runPerfOutcomes_all_ok (d :: rest)
    refine ⟨?_, ?_, ?_, ?_, ?_, ?_⟩
    · rfl
    · simp only [performanceTest, hrun]
    · simp only [performanceTest, hrun, List.length_nil]
    · simp only [performanceTest, hrun]
    · simp only [performanceTest, hrun]
      refine ⟨rest.foldl Nat.min d, ?_, ?_, ?_⟩
      · rfl
      · simpa using foldl_min_mem rest d
      · intro y hy
        rcases List.mem_cons.mp hy with hy1 | hmem
        · rw [hy1]
          exact (foldl_min_le rest d).1
        · exact (foldl_min_le rest d).2 y hmem
    · simp only [performanceTest, hrun]
      refine ⟨rest.foldl Nat.max d, ?_, ?_, ?_⟩
      · rfl
      · simpa using foldl_max_mem rest d
      · intro y hy
        rcases List.mem_cons.mp hy with hy1 | hmem
        · rw [hy1]
          exact (foldl_max_le rest d).1
        · exact (foldl_max_le rest d).2 y hmem

/-- Witness for C7 at the spec's example durations [10, 20, 30]: average 20,
min 10, max 30, successCount 3, failureCount 0. -/
theorem performanceTest_all_ok_witness :
    (performanceTest (List.length [10, 20, 30])
      (List.map Except.ok [10, 20, 30])).successfulRequests = 3 ∧
    (performanceTest (List.length [10, 20, 30])
      (List.map Except.ok [10, 20, 30])).failedRequests = 0 ∧
    (performanceTest (List.length [10, 20, 30])
      (List.map Except.ok [10, 20, 30])).averageTime = 20 ∧
    (performanceTest (List.length [10, 20, 30])
      (List.map Except.ok [10, 20, 30])).minTime = some 10 ∧
    (performanceTest (List.length [10, 20, 30])
      (List.map Except.ok [10, 20, 30])).maxTime = some 30 := by
  obtain ⟨h1, h2, h3, h4, ⟨m, hm, hmmem, hmle⟩, ⟨M, hM, hMmem, hMle⟩⟩ :=
    performanceTest_all_ok [10, 20, 30] (by decide)
  refine ⟨h2, h3, ?_, ?_, ?_⟩
  · rw [h4]; norm_num
  · have h10 := hmle 10 (by decide)
    have hm10 : m = 10 := by fin_cases hmmem <;> omega
    rw [hm, hm10]
  · have h30 := hMle 30 (by decide)
    have hM30 : M = 30 := by fin_cases hMmem <;> omega
    rw [hM, hM30]

/-- Binding a successful `Except` computation runs the continuation. -/
theorem except_bind_ok {α β ε : Type} (a : α) (f : α → Except ε β) :
    (Except.ok a >>= f) = f a := rfl

/-- Binding a thrown `Except` computation propagates the exception. -/
theorem except_bind_error {α β ε : Type} (e : ε) (f : α → Except ε β) :
    ((Except.error e : Except ε α) >>= f) = Except.error e := rfl

/-- Splitting a chunk with no separator yields one segment. -/
theorem splitCharAux_no_sep (c : Char) (zs : List Char) :
    ∀ acc, (∀ x ∈ zs, x ≠ c) → splitCharAux c zs acc = [acc.reverse ++ zs] := by
  induction zs with
  | nil => intro acc h; simp [splitCharAux]
  | cons z zs ih =>
    intro acc h
    have hz : z ≠ c := h z (by simp)
    simp only [splitCharAux, if_neg hz]
    rw [ih (z :: acc) (fun x hx => h x (by simp [hx]))]
    simp

/-- Splitting past a separator-free chunk peels off one segment. -/
theorem splitCharAux_sep (c : Char) (xs : List Char) :
    ∀ (ys : List Char) acc, (∀ x ∈ xs, x ≠ c) →
      splitCharAux c (xs ++ c :: ys) acc = (acc.reverse ++ xs) :: splitCharAux c ys [] := by
  induction xs with
  | nil => intro ys acc h; simp [splitCharAux]
  | cons z zs ih =>
    intro ys acc h
    have hz : z ≠ c := h z (by simp)
    simp only [List.cons_append, splitCharAux, if_neg hz, List.append_eq]
    rw [ih ys (z :: acc) (fun x hx => h x (by simp [hx]))]
    simp

/-- The `split(" ")` of a three-token header recovers the three tokens when no
token contains a space. -/
theorem jsSplit_three (a b c : String) (ha : ∀ x ∈ a.data, x ≠ ' ')
    (hb : ∀ x ∈ b.data, x ≠ ' ') (hc : ∀ x ∈ c.data, x ≠ ' ') :
    jsSplit (a ++ " " ++ b ++ " " ++ c) ' ' = [a, b, c] := by
  have hdata : (a ++ " " ++ b ++ " " ++ c).data =
      a.data ++ ' ' :: (b.data ++ ' ' :: c.data) := by
    simp [String.data_append]
  simp only [jsSplit, hdata]
  rw [splitCharAux_sep ' ' a.data (b.data ++ ' ' :: c.data) [] ha]
  rw [splitCharAux_sep ' ' b.data c.data [] hb]
  rw [splitCharAux_no_sep ' ' c.data [] hc]
  simp

/-- A string whose first 40 characters are a 40-character lowercase-hex token
passes the `/^[0-9a-f]{40}/` test. -/
theorem isHex40_true_of (s t40 : String) (t : List Char)
    (hdata : s.data = t40.data ++ t) (hlen : t40.data.length = 40)
    (hhex : t40.data.all isHexLower = true) : isHex40 s = true := by
  simp only [isHex40, hdata, List.take_left' hlen, hhex, hlen]
  rfl

/-- One parse-loop step on a well-formed header line: a fresh attribution with
the short hash and the third space-separated token, clearing author and date. -/
theorem blameStep_header (fmt : Int → String) (st : BlameState) (b : BlameBlock)
    (hwf : wfBlock b = true) :
    blameStep fmt st (b.hash40 ++ " " ++ b.origLine ++ " " ++ b.finalLine) =
      (⟨some (jsTake b.hash40 8), some b.finalLine, none, none⟩, []) := by
  simp only [wfBlock, Bool.and_eq_true, beq_iff_eq, Bool.not_eq_true'] at hwf
  obtain ⟨⟨⟨hlen, hhex⟩, horig⟩, hfinal⟩ := hwf
  have hhash : ∀ x ∈ b.hash40.data, x ≠ ' ' := by
    intro x hx hxe
    subst hxe
    have := List.all_eq_true.mp hhex _ hx
    exact absurd this (by decide)
  have horig2 : ∀ x ∈ b.origLine.data, x ≠ ' ' := by
    intro x hx hxe
    subst hxe
    simp [hx] at horig
  have hfinal2 : ∀ x ∈ b.finalLine.data, x ≠ ' ' := by
    intro x hx hxe
    subst hxe
    simp [hx] at hfinal
  have hhex40 : isHex40 (b.hash40 ++ " " ++ b.origLine ++ " " ++ b.finalLine) = true := by
    refine isHex40_true_of _ b.hash40 (' ' :: (b.origLine.data ++ ' ' :: b.finalLine.data))
      ?_ hlen hhex
    simp [String.data_append]
  have hsplit := jsSplit_three b.hash40 b.origLine b.finalLine hhash horig2 hfinal2
  simp [blameStep, hhex40, hsplit]

/-- One parse-loop step on an `author ` tag line: only the author field of the
running attribution changes. -/
theorem blameStep_author (fmt : Int → String) (st : BlameState) (a : String) :
    blameStep fmt st ("author " ++ a) = ({ st with author := some a }, []) := rfl

/-- One parse-loop step on an `author-time ` tag line: only the date field of
the running attribution changes. -/
theorem blameStep_time (fmt : Int → String) (st : BlameState) (t : String) :
    blameStep fmt st ("author-time " ++ t) =
      ({ st with date := some (blameDate fmt t) }, []) := rfl

/-- One parse-loop step on a tab-prefixed content line: the state is unchanged
and one record carrying the current attribution snapshot is emitted. -/
theorem blameStep_tab (fmt : Int → String) (st : BlameState) (c : String) :
    blameStep fmt st ("\t" ++ c) =
      (st, [⟨st.hash, st.line, st.author, st.date, c⟩]) := rfl

/-- The parse loop distributes over list append, threading the folded state. -/
theorem blameRun_append (fmt : Int → String) (st : BlameState) (xs ys : List String) :
    blameRun fmt st (xs ++ ys) =
      blameRun fmt st xs ++ blameRun fmt (blameFold fmt st xs) ys := by
  induction xs generalizing st with
  | nil => simp [blameRun, blameFold]
  | cons x xs ih =>
    simp only [List.cons_append, blameRun, blameFold, List.foldl_cons, List.append_eq]
    rw [ih]
    simp [blameFold, List.append_assoc]

/-- A run of tab-prefixed content lines emits one record per line, all
carrying the unchanged current attribution. -/
theorem blameRun_contents (fmt : Int → String) (st : BlameState) (cs : List String)
    (rest : List String) :
    blameRun fmt st (cs.map (fun c => "\t" ++ c) ++ rest) =
      cs.map (fun c => (⟨st.hash, st.line, st.author, st.date, c⟩ : BlameLine)) ++
        blameRun fmt st rest := by
  induction cs with
  | nil => simp
  | cons c cs ih =>
    simp only [List.map_cons, List.cons_append, blameRun, blameStep_tab]
    simp [ih]

/-- Parsing one well-formed block emits exactly its records and leaves the
parser in the block's attribution state, from any starting state. -/
theorem blameRun_block (fmt : Int → String) (b : BlameBlock) (st : BlameState)
    (rest : List String) (hwf : wfBlock b = true) :
    blameRun fmt st (blockLines b ++ rest) =
      blockRecords fmt b ++ blameRun fmt (blockState fmt b) rest := by
  simp only [blockLines, List.cons_append]
  simp only [blameRun, blameStep_header fmt st b hwf, blameStep_author, blameStep_time]
  rw [blameRun_contents]
  simp [blockRecords, blockState]

/-- Parsing a stream of well-formed blocks emits the blocks' records in
order, from any starting state. -/
theorem blameRun_blocks (fmt : Int → String) :
    ∀ (blocks : List BlameBlock), (∀ b ∈ blocks, wfBlock b = true) →
      ∀ st, blameRun fmt st (blocks.flatMap blockLines) =
        blocks.flatMap (blockRecords fmt) := by
  intro blocks
  induction blocks with
  | nil => intro _ _; rfl
  | cons b bs ih =>
    intro h st
    simp only [List.flatMap_cons]
    rw [blameRun_block fmt b st _ (h b (by simp))]
    rw [ih (fun x hx => h x (by simp [hx])) (blockState fmt b)]

/-- Claim C3: a stream of K well-formed commit-info blocks (header plus
`author `/`author-time ` tag lines) each followed by its content lines parses
to exactly M_1 + ... + M_K records, in input order, each carrying the short
hash (first 8 header characters), author and formatted date of its own —
i.e. the nearest preceding — commit-info block. -/
theorem blameParse_roundTrip (fmt : Int → String) (blocks : List BlameBlock)
    (h : ∀ b ∈ blocks, wfBlock b = true) :
    blameParse fmt (blocks.flatMap blockLines) = blocks.flatMap (blockRecords fmt) ∧
    (blameParse fmt (blocks.flatMap blockLines)).length =
      (blocks.map (fun b => b.contents.length)).sum := by
  have hmain := blameRun_blocks fmt blocks h blameInit
  refine ⟨hmain, ?_⟩
  rw [blameParse, hmain, List.length_flatMap]
  have hcomp : List.length ∘ blockRecords fmt = fun b => b.contents.length :=
    funext fun b => by simp [blockRecords]
  rw [hcomp]

/-- A concrete 40-hex commit identifier used by the blame witnesses. -/
def hashA : String := "aaaaaaaaaaaaaaaaaaaaaaaaaaaaaaaaaaaaaaaa"

/-- A concrete well-formed block used by the C3 witness. -/
def blockW : BlameBlock := ⟨hashA, "1", "7", "Alice", "100", ["x", "y"]⟩

/-- Witness for C3 at one concrete block with two content lines. -/
theorem blameParse_roundTrip_witness :
    blameParse (fun t => toString t) ([blockW].flatMap blockLines) =
      [blockW].flatMap (blockRecords (fun t => toString t)) ∧
    (blameParse (fun t => toString t) ([blockW].flatMap blockLines)).length =
      ([blockW].map (fun b => b.contents.length)).sum :=
  blameParse_roundTrip (fun t => toString t) [blockW] (by decide)

/-- Claim C8 counterexample: in a stream where an `author ` tag line precedes
the first 40-hex commit-info line, the content line emitted before any header
does NOT have all attribution fields absent — the stray tag populated the
author field of the running attribution. The claim's universal quantification
over "every input stream in which a tab-prefixed content line appears before
any 40-hex commit-info line" therefore fails. -/
theorem blame_pre_header_cex :
    blameParse (fun _ => "") ["author Bob", "\t" ++ "x"] =
      [⟨none, none, some "Bob", none, "x"⟩] := rfl

/-- Claim C8 (amended): if a tab-prefixed content line is preceded only by
lines the parser does not interpret — no 40-hex commit-info line and no
`author `/`author-time ` tag line — the parser still emits a record for it,
with hash, line number, author and date all absent (no synthetic
placeholder), and parsing raises no error (the parse is total and the
surrounding stream parses unchanged). -/
theorem blame_content_before_header (fmt : Int → String) (pre : List String)
    (c : String) (rest : List String)
    (h : ∀ l ∈ pre, isHex40 l = false ∧ jsStartsWith l ("author ") = false ∧
      jsStartsWith l ("author-time ") = false) :
    blameParse fmt (pre ++ ("\t" ++ c) :: rest) =
      blameParse fmt pre ++ (⟨none, none, none, none, c⟩ : BlameLine) ::
        blameParse fmt rest := by
  have hfold : blameFold fmt blameInit pre = blameInit := by
    have main : ∀ (lines : List String),
        (∀ l ∈ lines, isHex40 l = false ∧ jsStartsWith l ("author ") = false ∧
          jsStartsWith l ("author-time ") = false) →
        ∀ st, blameFold fmt st lines = st := by
      intro lines
      induction lines with
      | nil => intro _ _; rfl
      | cons l ls ih =>
        intro hl st
        obtain ⟨h1, h2, h3⟩ := hl l (by simp)
        have hstep : (blameStep fmt st l).1 = st := by
          simp only [blameStep, h1, h2, h3, Bool.false_eq_true, if_false]
          split <;> rfl
        simp only [blameFold, List.foldl_cons]
        rw [hstep]
        exact ih (fun x hx => hl x (by simp [hx])) st
    exact main pre h blameInit
  simp only [blameParse]
  rw [blameRun_append, hfold]
  have htab : blameRun fmt blameInit (("\t" ++ c) :: rest) =
      (⟨none, none, none, none, c⟩ : BlameLine) :: blameRun fmt blameInit rest := by
    simp [blameRun, blameStep_tab, blameInit]
  rw [htab]

/-- Witness for the amended C8: one uninterpreted boundary line, then a
content line, then a tag line. -/
theorem blame_content_before_header_witness :
    blameParse (fun _ => "") (["boundary"] ++ ("\t" ++ "x") :: ["author Z"]) =
      blameParse (fun _ => "") ["boundary"] ++
        (⟨none, none, none, none, "x"⟩ : BlameLine) ::
        blameParse (fun _ => "") ["author Z"] :=
  blame_content_before_header (fun _ => "") ["boundary"] "x" ["author Z"] (by decide)

/-- A fold over lines none of which is a 40-hex commit-info line never sets
the `line` field of the running attribution. -/
theorem blameFold_line_none (fmt : Int → String) (lines : List String)
    (h : ∀ l ∈ lines, isHex40 l = false) :
    ∀ st : BlameState, st.line = none → (blameFold fmt st lines).line = none := by
  induction lines with
  | nil => intro st hst; exact hst
  | cons l ls ih =>
    intro st hst
    have h1 := h l (by simp)
    have hstep : (blameStep fmt st l).1.line = st.line := by
      simp only [blameStep, h1, Bool.false_eq_true, if_false]
      split
      · rfl
      · split
        · rfl
        · split <;> rfl
    simp only [blameFold, List.foldl_cons]
    have hres := ih (fun x hx => h x (by simp [hx])) (blameStep fmt st l).1
      (hstep.trans hst)
    simp only [blameFold] at hres
    exact hres

/-- Rendering a record list that contains a record with an absent line number
throws (the thrown `TypeError` aborts the whole `map`). -/
theorem renderRows_error_of_mem (r : BlameLine) (ls : List BlameLine)
    (hmem : r ∈ ls) (hline : r.line = none) :
    ∃ m, renderBlameRows ls = Except.error m := by
  induction ls with
  | nil => cases hmem
  | cons a as ih =>
    rcases List.mem_cons.mp hmem with h1 | h1
    · have ha : a.line = none := by rw [← h1]; exact hline
      refine ⟨"Cannot read properties of undefined (reading " ++ quo ++ "padEnd" ++
        quo ++ ")", ?_⟩
      simp only [renderBlameRows, renderBlameRow, ha, jsPadEndOpt]
      rfl
    · cases hrow : renderBlameRow a with
      | error m =>
        exact ⟨m, by simp only [renderBlameRows, hrow]; rfl⟩
      | ok row =>
        obtain ⟨m, hm⟩ := ih h1
        exact ⟨m, by simp only [renderBlameRows, hrow, except_bind_ok, hm]; rfl⟩

/-- Claim C10: in the git-server.js variant of `git_blame`, for any stream in
which a tab-prefixed content line appears before any 40-hex commit-info line,
the parse loop emits that record with an absent line number, the markdown
rendering's `padEnd` call on it throws a `TypeError`, and the whole
invocation ends as a Failure envelope (isError: true) instead of returning
the parsed records. -/
theorem gitBlame_missing_line_failure (fmt : Int → String) (pre rest : List String)
    (c file : String) (h : ∀ l ∈ pre, isHex40 l = false) :
    (gitBlameResult fmt (pre ++ ("\t" ++ c) :: rest) file).isError = true := by
  have hline : (blameFold fmt blameInit pre).line = none :=
    blameFold_line_none fmt pre h blameInit rfl
  have hparse : blameParse fmt (pre ++ ("\t" ++ c) :: rest) =
      blameRun fmt blameInit pre ++
        (⟨(blameFold fmt blameInit pre).hash, (blameFold fmt blameInit pre).line,
          (blameFold fmt blameInit pre).author, (blameFold fmt blameInit pre).date,
          c⟩ : BlameLine) ::
        blameRun fmt (blameFold fmt blameInit pre) rest := by
    simp only [blameParse]
    rw [blameRun_append]
    simp only [blameRun, blameStep_tab, List.singleton_append]
  obtain ⟨m, hm⟩ := renderRows_error_of_mem
    (⟨(blameFold fmt blameInit pre).hash, (blameFold fmt blameInit pre).line,
      (blameFold fmt blameInit pre).author, (blameFold fmt blameInit pre).date,
      c⟩ : BlameLine)
    (blameParse fmt (pre ++ ("\t" ++ c) :: rest))
    (by rw [hparse]; exact List.mem_append_right _ (List.mem_cons_self _ _)) hline
  simp only [gitBlameResult, renderBlameTable, hm]
  rfl

/-- Witness for C10: a stream consisting of exactly one content line. -/
theorem gitBlame_missing_line_failure_witness :
    (gitBlameResult (fun _ => "") ([] ++ ("\t" ++ "x") :: []) "f.txt").isError = true :=
  gitBlame_missing_line_failure (fun _ => "") [] [] "x" "f.txt" (by simp)
